import Mathlib

set_option linter.unnecessarySeqFocus false
set_option linter.unusedVariables false

/-!
Verification of the compress-decompress-json repository.

The development shallowly embeds the three source files:

* `src/unnamed/part_000` — the Angular `CompressionService` (sync transform
  engine, execution dispatcher `processDataAsync`, classifier `analyzeData`);
* `src/src/app/compression.worker.ts` — the worker endpoint message handler;
* `src/src/app/app.component.ts` — the `handleAction` entry point.

The service delegates to two external collaborators that are not part of the
repository: the platform JSON engine (`JSON.parse` / `JSON.stringify`) and the
`lz-string` library (`compressToBase64` / `decompressFromBase64`).  Both are
modelled here as executable Lean functions, faithful to their documented
interfaces: the JSON model covers objects, arrays, strings (with quote and
backslash escapes), integer numerals, booleans and null — the fragment the
specification's structured-data grammar exercises — and the compression model
is an invertible encoder onto the base64-safe alphabet, matching the
interface the specification assigns to the fixed compression scheme.
-/

namespace CompressDecompressJson

/-! ## Characters, whitespace, digits -/

/-- Whitespace characters recognised by the JSON grammar and by input
trimming: space, tab, line feed, carriage return. -/
def isWsChar (c : Char) : Bool :=
  c = ' ' || c = '\t' || c = '\n' || c = '\r'

/-- Drops leading whitespace, as the JSON parser does between tokens. -/
def skipWs (cs : List Char) : List Char :=
  cs.dropWhile isWsChar

/-- Removes leading and trailing whitespace; models `String.prototype.trim`. -/
def trimChars (cs : List Char) : List Char :=
  ((cs.dropWhile isWsChar).reverse.dropWhile isWsChar).reverse

/-- String-level wrapper of `trimChars`. -/
def trimString (s : String) : String :=
  String.mk (trimChars s.data)

/-- Decimal digit character for a value below ten. -/
def digitChar (d : Nat) : Char :=
  match d with
  | 0 => '0' | 1 => '1' | 2 => '2' | 3 => '3' | 4 => '4'
  | 5 => '5' | 6 => '6' | 7 => '7' | 8 => '8' | _ => '9'

/-- Numeric value of a decimal digit character. -/
def digitVal (c : Char) : Nat :=
  c.toNat - '0'.toNat

/-- Numeric value of a digit run, most significant digit first. -/
def digitsVal (ds : List Char) : Nat :=
  ds.foldl (fun a c => 10 * a + digitVal c) 0

/-- Fuel-driven core of the decimal printer: digits of `n`, empty for zero. -/
def natToDigitsAux : Nat → Nat → List Char
  | 0, _ => []
  | _ + 1, 0 => []
  | f + 1, n + 1 => natToDigitsAux f ((n + 1) / 10) ++ [digitChar ((n + 1) % 10)]

/-- Decimal digits of a natural number, canonical form (no leading zeros). -/
def natToDigits (m : Nat) : List Char :=
  if m = 0 then ['0'] else natToDigitsAux (m + 1) m

/-! ## The structured-value data model -/

/-- Structured values of the JSON-equivalent grammar used by the service. -/
inductive JsonValue where
  | null : JsonValue
  | bool (b : Bool) : JsonValue
  | num (n : Int) : JsonValue
  | str (s : String) : JsonValue
  | arr (xs : List JsonValue) : JsonValue
  | obj (kvs : List (String × JsonValue)) : JsonValue

/-- Composite test used by the classifier: `typeof parsed === 'object' &&
parsed !== null` holds exactly of objects and arrays of the grammar. -/
def isComposite : JsonValue → Bool
  | .arr _ => true
  | .obj _ => true
  | _ => false

/-! ## Parser (model of `JSON.parse`) -/

/-- Escape resolution inside string literals. -/
def unescapeChar (e : Char) : Option Char :=
  if e = '"' then some '"'
  else if e = '\\' then some '\\'
  else if e = '/' then some '/'
  else if e = 'n' then some '\n'
  else if e = 't' then some '\t'
  else if e = 'r' then some '\r'
  else none

/-- Parses the body of a string literal after the opening quote; returns the
unescaped characters and the remainder after the closing quote. -/
def parseStringBody : List Char → Option (List Char × List Char)
  | [] => none
  | c :: rest =>
    if c = '"' then some ([], rest)
    else if c = '\\' then
      match rest with
      | [] => none
      | e :: rest2 =>
        match unescapeChar e with
        | some u => (parseStringBody rest2).map (fun p => (u :: p.1, p.2))
        | none => none
    else (parseStringBody rest).map (fun p => (c :: p.1, p.2))

mutual

/-- Fuel-driven recursive-descent value parser.  After optional whitespace it
dispatches on the first character exactly as the JSON grammar does. -/
def parseValue : Nat → List Char → Option (JsonValue × List Char)
  | 0, _ => none
  | fuel + 1, cs =>
    match skipWs cs with
    | [] => none
    | c :: rest =>
      if c = '\x7b' then
        match skipWs rest with
        | [] => none
        | c2 :: rest2 =>
          if c2 = '\x7d' then some (.obj [], rest2)
          else
            match parseMembersO fuel rest with
            | some (kvs, rest3) => some (.obj kvs, rest3)
            | none => none
      else if c = '[' then
        match skipWs rest with
        | [] => none
        | c2 :: rest2 =>
          if c2 = ']' then some (.arr [], rest2)
          else
            match parseItemsA fuel rest with
            | some (xs, rest3) => some (.arr xs, rest3)
            | none => none
      else if c = '"' then
        match parseStringBody rest with
        | some (body, rest2) => some (.str (String.mk body), rest2)
        | none => none
      else if c = 'n' then
        match rest with
        | c1 :: c2 :: c3 :: rest3 =>
          if c1 = 'u' && c2 = 'l' && c3 = 'l' then some (.null, rest3) else none
        | _ => none
      else if c = 't' then
        match rest with
        | c1 :: c2 :: c3 :: rest3 =>
          if c1 = 'r' && c2 = 'u' && c3 = 'e' then some (.bool true, rest3) else none
        | _ => none
      else if c = 'f' then
        match rest with
        | c1 :: c2 :: c3 :: c4 :: rest4 =>
          if c1 = 'a' && c2 = 'l' && c3 = 's' && c4 = 'e' then
            some (.bool false, rest4)
          else none
        | _ => none
      else if c = '-' then
        let ds := rest.takeWhile Char.isDigit
        if ds = [] then none
        else some (.num (-(digitsVal ds : Int)), rest.dropWhile Char.isDigit)
      else if c.isDigit then
        some (.num (digitsVal ((c :: rest).takeWhile Char.isDigit)),
          (c :: rest).dropWhile Char.isDigit)
      else none

/-- Parses one or more comma-separated array items followed by `]`. -/
def parseItemsA : Nat → List Char → Option (List JsonValue × List Char)
  | 0, _ => none
  | fuel + 1, cs =>
    match parseValue fuel cs with
    | none => none
    | some (v, rest) =>
      match skipWs rest with
      | [] => none
      | c :: rest2 =>
        if c = ',' then
          match parseItemsA fuel rest2 with
          | some (vs, rest3) => some (v :: vs, rest3)
          | none => none
        else if c = ']' then some ([v], rest2)
        else none

/-- Parses one or more comma-separated object members followed by the closing
brace. -/
def parseMembersO : Nat → List Char → Option (List (String × JsonValue) × List Char)
  | 0, _ => none
  | fuel + 1, cs =>
    match skipWs cs with
    | [] => none
    | c :: rest =>
      if c = '"' then
        match parseStringBody rest with
        | none => none
        | some (key, rest1) =>
          match skipWs rest1 with
          | [] => none
          | c1 :: rest2 =>
            if c1 = ':' then
              match parseValue fuel rest2 with
              | none => none
              | some (v, rest3) =>
                match skipWs rest3 with
                | [] => none
                | c2 :: rest4 =>
                  if c2 = ',' then
                    match parseMembersO fuel rest4 with
                    | some (kvs, rest5) => some ((String.mk key, v) :: kvs, rest5)
                    | none => none
                  else if c2 = '\x7d' then some ([(String.mk key, v)], rest4)
                  else none
            else none
      else none

end

/-- Model of `JSON.parse`: parses a whole string as one structured value,
allowing surrounding whitespace and nothing else. -/
def parseJson (s : String) : Option JsonValue :=
  match parseValue (s.data.length + 1) s.data with
  | some (v, rest) => if skipWs rest = [] then some v else none
  | none => none

end CompressDecompressJson

namespace CompressDecompressJson

/-! ## Serializer (model of `JSON.stringify`) -/

/-- Decimal rendering of an integer numeral. -/
def renderInt (n : Int) : List Char :=
  if n < 0 then '-' :: natToDigits n.natAbs else natToDigits n.toNat

/-- Escaping applied by the serializer to one string character. -/
def escapeChar (c : Char) : List Char :=
  if c = '"' then ['\\', '"']
  else if c = '\\' then ['\\', '\\']
  else [c]

/-- Escaping applied by the serializer to a whole string body. -/
def escapeChars : List Char → List Char
  | [] => []
  | c :: cs => escapeChar c ++ escapeChars cs

/-- Quoted, escaped rendering of a string value. -/
def renderStr (cs : List Char) : List Char :=
  '"' :: (escapeChars cs ++ ['"'])

/-- Layout whitespace emitted before an element at nesting level `lvl`:
nothing in compact mode, newline plus two-space-per-level indentation in
pretty mode (the `JSON.stringify(v, null, 2)` layout). -/
def jsonWs (p : Bool) (lvl : Nat) : List Char :=
  if p then '\n' :: List.replicate (2 * lvl) ' ' else []

/-- Whitespace after a member colon: one space in pretty mode. -/
def colonWs (p : Bool) : List Char :=
  if p then [' '] else []

mutual

/-- Serializer for one value; `p` selects pretty layout, `lvl` is the current
nesting level.  `p = false` gives the compact `JSON.stringify(v)` form and
`p = true` the `JSON.stringify(v, null, 2)` form. -/
def renderV (p : Bool) (lvl : Nat) : JsonValue → List Char
  | .null => "null".data
  | .bool true => "true".data
  | .bool false => "false".data
  | .num n => renderInt n
  | .str s => renderStr s.data
  | .arr [] => ['[', ']']
  | .arr (x :: xs) =>
      '[' :: (jsonWs p (lvl + 1) ++ renderItemsA p (lvl + 1) x xs ++
        (jsonWs p lvl ++ [']']))
  | .obj [] => ['\x7b', '\x7d']
  | .obj ((k, v) :: kvs) =>
      '\x7b' :: (jsonWs p (lvl + 1) ++ renderMembersO p (lvl + 1) k v kvs ++
        (jsonWs p lvl ++ ['\x7d']))
termination_by v => sizeOf v
decreasing_by all_goals (simp_wf <;> omega)

/-- Serializer for a nonempty run of array items, separators included. -/
def renderItemsA (p : Bool) (lvl : Nat) (x : JsonValue) : List JsonValue → List Char
  | [] => renderV p lvl x
  | y :: ys => renderV p lvl x ++ ',' :: (jsonWs p lvl ++ renderItemsA p lvl y ys)
termination_by xs => 1 + sizeOf x + sizeOf xs
decreasing_by all_goals (simp_wf <;> omega)

/-- Serializer for a nonempty run of object members, separators included. -/
def renderMembersO (p : Bool) (lvl : Nat) (k : String) (v : JsonValue) :
    List (String × JsonValue) → List Char
  | [] => renderStr k.data ++ ':' :: (colonWs p ++ renderV p lvl v)
  | (k2, v2) :: kvs =>
      (renderStr k.data ++ ':' :: (colonWs p ++ renderV p lvl v)) ++
        ',' :: (jsonWs p lvl ++ renderMembersO p lvl k2 v2 kvs)
termination_by kvs => 2 + sizeOf v + sizeOf kvs
decreasing_by all_goals (simp_wf <;> omega)

end

/-- Compact serialization: model of `JSON.stringify(v)`. -/
def stringifyCompact (v : JsonValue) : String :=
  String.mk (renderV false 0 v)

/-- Pretty serialization with stable two-space indentation: model of
`JSON.stringify(v, null, 2)`. -/
def stringifyPretty (v : JsonValue) : String :=
  String.mk (renderV true 0 v)

/-! ## Fuel bound for the parser -/

mutual

/-- Fuel needed by `parseValue` to accept a rendering of `v`. -/
def gsize : JsonValue → Nat
  | .null => 1
  | .bool _ => 1
  | .num _ => 1
  | .str _ => 1
  | .arr [] => 1
  | .arr (x :: xs) => 1 + gsizeItems x xs
  | .obj [] => 1
  | .obj ((_, v) :: kvs) => 1 + gsizeMembers v kvs
termination_by v => sizeOf v
decreasing_by all_goals (simp_wf <;> omega)

/-- Fuel needed by `parseItemsA` for a nonempty item run. -/
def gsizeItems (x : JsonValue) : List JsonValue → Nat
  | [] => 1 + gsize x
  | y :: ys => 1 + gsize x + gsizeItems y ys
termination_by xs => 1 + sizeOf x + sizeOf xs
decreasing_by all_goals (simp_wf <;> omega)

/-- Fuel needed by `parseMembersO` for a nonempty member run. -/
def gsizeMembers (v : JsonValue) : List (String × JsonValue) → Nat
  | [] => 1 + gsize v
  | (_, v2) :: kvs => 1 + gsize v + gsizeMembers v2 kvs
termination_by kvs => 2 + sizeOf v + sizeOf kvs
decreasing_by all_goals (simp_wf <;> omega)

end

/-! ## Compression scheme (model of the `lz-string` collaborator)

Modelled from the spec: the repository consumes `lz-string`'s
`compressToBase64` / `decompressFromBase64` pair, specified only at its
interface — a deterministic, lossless, invertible text encoder emitting a
printable base64-safe alphabet, whose decode step yields no result on
unrecognised input.  The model encodes each character's code point in
decimal, terminated by `+`, after a leading `A` tag; decode reverses this and
fails (`none`, the model of a null return) on any string not of that shape.
As with the real scheme, the empty string encodes to a nonempty tag whose
decode is the empty string, and decoding the empty string itself fails. -/

/-- Encoding of one character: decimal code point, then a `+` terminator. -/
def encodeChar (c : Char) : List Char :=
  natToDigits c.toNat ++ ['+']

/-- Character-wise encoding of a whole text. -/
def encodeChars : List Char → List Char
  | [] => []
  | c :: cs => encodeChar c ++ encodeChars cs

/-- Modelled from the spec: `LZString.compressToBase64`. -/
def compressToBase64 (s : String) : String :=
  String.mk ('A' :: encodeChars s.data)

/-- Fuel-driven decoder for the group format produced by `encodeChars`. -/
def decodeGroups : Nat → List Char → Option (List Char)
  | _, [] => some []
  | 0, _ :: _ => none
  | fuel + 1, c :: cs =>
    let ds := (c :: cs).takeWhile Char.isDigit
    if ds = [] then none
    else
      match (c :: cs).dropWhile Char.isDigit with
      | [] => none
      | r :: rest2 =>
        if r = '+' then
          match decodeGroups fuel rest2 with
          | some tail => some (Char.ofNat (digitsVal ds) :: tail)
          | none => none
        else none

/-- Modelled from the spec: `LZString.decompressFromBase64`; `none` models a
null return. -/
def decompressFromBase64 (s : String) : Option String :=
  match s.data with
  | [] => none
  | c :: rest => if c = 'A' then (decodeGroups rest.length rest).map String.mk else none

/-! ## Errors and results -/

/-- Failure values thrown/rejected by the pipeline.  Each constructor stands
for one distinct reason string of the source (see `errorMessage`); the parse
failure carries the offending input, standing for the engine's
position-dependent SyntaxError message. -/
inductive JsError where
  | jsonParse (input : String)
  | syncDecodeFail
  | workerDecodeFail
  | workersUnsupported
deriving DecidableEq

/-- Human-readable reason strings, as rejected to the caller by the source
(the SyntaxError text is the engine's, modelled by a fixed prefix). -/
def errorMessage : JsError → String
  | .jsonParse _ => "Unexpected token in JSON"
  | .syncDecodeFail => "Decompression returned no data or failed."
  | .workerDecodeFail => "Decompression failed: Returned null/undefined."
  | .workersUnsupported => "Web Workers are not supported in this environment."

/-- Unified settled result of `processDataAsync`: a resolution with the
transformed text or a rejection with a failure reason. -/
inductive TransformResult where
  | ok (result : String)
  | err (reason : JsError)
deriving DecidableEq

/-- Transform direction requested by the caller. -/
inductive Action where
  | compress
  | decompress
deriving DecidableEq

end CompressDecompressJson

namespace CompressDecompressJson

/-! ## The CompressionService (source file `src/unnamed/part_000`) -/

namespace CompressionService

/-- Embeds `compressJsonSync`: `JSON.stringify` the parsed object compactly,
then `LZString.compressToBase64` the result. -/
def compressJsonSync (jsonObject : JsonValue) : String :=
  compressToBase64 (stringifyCompact jsonObject)

/-- Embeds `decompressJsonSync`: decode with `decompressFromBase64`, throw
`'Decompression returned no data or failed.'` on a null/undefined decode,
otherwise `JSON.stringify(JSON.parse(jsonString), null, 2)` (a failing parse
throws the engine's SyntaxError). -/
def decompressJsonSync (compressedString : String) : Except JsError String :=
  match decompressFromBase64 compressedString with
  | none => .error .syncDecodeFail
  | some jsonString =>
    match parseJson jsonString with
    | none => .error (.jsonParse jsonString)
    | some v => .ok (stringifyPretty v)

/-- Embeds the synchronous (non-worker) branch of `processDataAsync`: parse
the raw input for a compress action and feed it to `compressJsonSync`, or run
`decompressJsonSync`; any thrown error is converted into a rejection. -/
def runSync (action : Action) (data : String) : TransformResult :=
  match action with
  | .compress =>
    match parseJson data with
    | none => .err (.jsonParse data)
    | some jsonObject => .ok (compressJsonSync jsonObject)
  | .decompress =>
    match decompressJsonSync data with
    | .ok r => .ok r
    | .error e => .err e

end CompressionService

/-! ## The worker endpoint (source file `src/src/app/compression.worker.ts`) -/

/-- Response message posted back across the worker boundary: exactly one of
`success: true, result` or `success: false, error`. -/
inductive WorkerResponse where
  | success (result : String)
  | failure (error : JsError)
deriving DecidableEq

/-- Embeds the worker's `message` listener: for `compress`, parse then
stringify then `compressToBase64`; for `decompress`, decode (throwing
`'Decompression failed: Returned null/undefined.'` on null/undefined), parse,
and pretty-print; every thrown error becomes a failure response.  The
`Action` type is binary, so the listener's invalid-action branch is
unreachable in the model. -/
def workerOnMessage (action : Action) (data : String) : WorkerResponse :=
  match action with
  | .compress =>
    match parseJson data with
    | none => .failure (.jsonParse data)
    | some jsonObject => .success (compressToBase64 (stringifyCompact jsonObject))
  | .decompress =>
    match decompressFromBase64 data with
    | none => .failure .workerDecodeFail
    | some decompressedString =>
      match parseJson decompressedString with
      | none => .failure (.jsonParse decompressedString)
      | some jsonObject => .success (stringifyPretty jsonObject)

namespace CompressionService

/-- Embeds `processDataAsync`: the dispatcher.  With `useWorker = false` it
runs the synchronous branch; with `useWorker = true` it spawns a worker and
settles from the single response message when the host supports workers
(`workerSupported` models `typeof Worker !== 'undefined'`), and otherwise
rejects with `'Web Workers are not supported in this environment.'` without
invoking any transform. -/
def processDataAsync (action : Action) (data : String)
    (useWorker : Bool) (workerSupported : Bool) : TransformResult :=
  if !useWorker then runSync action data
  else if workerSupported then
    match workerOnMessage action data with
    | .success r => .ok r
    | .failure e => .err e
  else .err .workersUnsupported

/-- Classification tags returned by `analyzeData`; the spec's `Structured`,
`CompressedEncoding`, `Unrecognized` are the source's `'json'`,
`'compressed'`, `'unknown'`. -/
inductive AnalyzeResult where
  | compressed
  | json
  | unknown
deriving DecidableEq

/-- Embeds the static `analyzeData`: trim; empty is unknown; a parse that
yields a non-null object (a composite) is `json`; otherwise a truthy decode
(neither null nor empty) whose text parses is `compressed`; otherwise
`unknown`. -/
def analyzeData (input : String) : AnalyzeResult :=
  let trimmedInput := trimString input
  if trimmedInput = "" then .unknown
  else
    let structured :=
      match parseJson trimmedInput with
      | some parsed => isComposite parsed
      | none => false
    if structured then .json
    else
      match decompressFromBase64 trimmedInput with
      | some decompressed =>
        if decompressed ≠ "" ∧ (parseJson decompressed).isSome then .compressed
        else .unknown
      | none => .unknown

end CompressionService

/-! ## The entry point (source file `src/src/app/app.component.ts`) -/

/-- Observable outcome of one `handleAction` call: either the up-front
`"Input cannot be empty."` rejection, which returns before any dispatch, or a
dispatch of the selected action with the settled transform result. -/
inductive HandleOutcome where
  | emptyInput
  | dispatched (action : Action) (result : TransformResult)
deriving DecidableEq

namespace AppComponent

/-- Embeds `handleAction` together with the `analyzeInput` state it reads:
blank input short-circuits to the empty-input error; otherwise the action is
`compress` exactly when the classifier said `json` (set by `analyzeInput`
from the trimmed input), and the untrimmed input is dispatched. -/
def handleAction (dataInput : String) (useWebWorker workerSupported : Bool) :
    HandleOutcome :=
  if trimString dataInput = "" then .emptyInput
  else
    let dataType := CompressionService.analyzeData (trimString dataInput)
    let action := if dataType = .json then Action.compress else Action.decompress
    .dispatched action
      (CompressionService.processDataAsync action dataInput useWebWorker workerSupported)

end AppComponent

/-- Predicate: every character of the list is layout whitespace. -/
def IsWsRun (ws : List Char) : Prop := ∀ c ∈ ws, isWsChar c = true

/-- Predicate: the list does not begin with a digit, so a preceding numeral
token cannot absorb it. -/
def DelimAfter (rest : List Char) : Prop :=
  ∀ c, rest.head? = some c → c.isDigit = false

/-- Characters of the base64-safe output alphabet. -/
def isB64Char (c : Char) : Bool :=
  c.isAlphanum || c = '+' || c = '/' || c = '='

/-- Difference between the two decompression error messages: the map from the
synchronous engine's decode-failure rejection to the worker's wording. -/
def toWorkerErr : TransformResult → TransformResult
  | .err .syncDecodeFail => .err .workerDecodeFail
  | r => r

/-! ## Reference classifier from the specification's words -/

/-- Reference definition of the classifier, following the specification text
step by step (claim C3): trim and return `Unrecognized` when empty; parse as
a structured value and return `Structured` when the parse succeeds and the
value is a composite; otherwise decode, and when decoding succeeds with
non-empty text that parses as a structured value return `CompressedEncoding`;
otherwise `Unrecognized`. -/
def classifySpec (input : String) : CompressionService.AnalyzeResult :=
  let t := trimString input
  if t = "" then .unknown
  else
    match parseJson t with
    | some v =>
      if isComposite v then .json
      else
        match decompressFromBase64 t with
        | some d =>
          if d ≠ "" ∧ (parseJson d).isSome then .compressed else .unknown
        | none => .unknown
    | none =>
      match decompressFromBase64 t with
      | some d =>
        if d ≠ "" ∧ (parseJson d).isSome then .compressed else .unknown
      | none => .unknown

end CompressDecompressJson

namespace CompressDecompressJson

/-! ## Whitespace and scanning lemmas -/

theorem delimAfter_nil : DelimAfter [] := by
  intro c h; cases h

theorem delimAfter_cons {c : Char} (h : c.isDigit = false) (cs : List Char) :
    DelimAfter (c :: cs) := by
  intro d hd
  simp [List.head?] at hd
  exact hd ▸ h

theorem isWsRun_nil : IsWsRun [] := by
  intro c h; cases h

theorem skipWs_ws_append (ws cs : List Char) (h : IsWsRun ws) :
    skipWs (ws ++ cs) = skipWs cs := by
  induction ws with
  | nil => rfl
  | cons w ws ih =>
    have hw : isWsChar w = true := h w (List.mem_cons_self w ws)
    have hws : IsWsRun ws := fun c hc => h c (List.mem_cons_of_mem w hc)
    simp [skipWs, List.dropWhile, hw]
    simpa [skipWs] using ih hws

theorem skipWs_cons_of_neg (c : Char) (cs : List Char) (h : isWsChar c = false) :
    skipWs (c :: cs) = c :: cs := by
  simp [skipWs, List.dropWhile, h]

theorem skipWs_concat (ws : List Char) (c : Char) (cs : List Char)
    (hws : IsWsRun ws) (hc : isWsChar c = false) :
    skipWs (ws ++ c :: cs) = c :: cs := by
  rw [skipWs_ws_append ws _ hws, skipWs_cons_of_neg c cs hc]

theorem takeWhile_all_append (p : Char → Bool) (a b : List Char)
    (ha : ∀ c ∈ a, p c = true) (hb : ∀ c, b.head? = some c → p c = false) :
    (a ++ b).takeWhile p = a ∧ (a ++ b).dropWhile p = b := by
  induction a with
  | nil =>
    simp only [List.nil_append]
    cases b with
    | nil => exact ⟨rfl, rfl⟩
    | cons c cs =>
      have := hb c (by simp)
      simp [List.takeWhile, List.dropWhile, this]
  | cons x a ih =>
    have hx : p x = true := ha x (List.mem_cons_self x a)
    have ha' : ∀ c ∈ a, p c = true := fun c hc => ha c (List.mem_cons_of_mem x hc)
    have := ih ha'
    simp [List.takeWhile, List.dropWhile, hx, this.1, this.2]

theorem ws_not_digit (c : Char) (h : isWsChar c = true) : c.isDigit = false := by
  simp [isWsChar] at h
  rcases h with ((rfl | rfl) | rfl) | rfl <;> decide

theorem digit_not_ws (c : Char) (h : c.isDigit = true) : isWsChar c = false := by
  cases hw : isWsChar c with
  | false => rfl
  | true => rw [ws_not_digit c hw] at h; cases h

theorem digit_ne (c x : Char) (h : c.isDigit = true) (hx : x.isDigit = false) :
    c ≠ x := by
  rintro rfl
  rw [h] at hx
  cases hx

/-! ## Decimal printer lemmas -/

theorem digitChar_isDigit (d : Nat) : (digitChar d).isDigit = true := by
  unfold digitChar
  split <;> decide

theorem digitVal_digitChar (d : Nat) (h : d < 10) : digitVal (digitChar d) = d := by
  interval_cases d <;> decide

theorem digitsVal_append_singleton (ds : List Char) (c : Char) :
    digitsVal (ds ++ [c]) = 10 * digitsVal ds + digitVal c := by
  simp [digitsVal, List.foldl_append]

theorem natToDigitsAux_zero (f : Nat) : natToDigitsAux f 0 = [] := by
  cases f <;> rfl

theorem natToDigitsAux_spec (n : Nat) :
    ∀ f, 0 < n → n ≤ f →
      natToDigitsAux f n ≠ [] ∧
      (∀ c ∈ natToDigitsAux f n, c.isDigit = true) ∧
      digitsVal (natToDigitsAux f n) = n := by
  induction n using Nat.strong_induction_on with
  | _ n ih =>
    intro f hn hf
    obtain ⟨m, rfl⟩ : ∃ m, n = m + 1 := ⟨n - 1, by omega⟩
    obtain ⟨g, rfl⟩ : ∃ g, f = g + 1 := ⟨f - 1, by omega⟩
    have hstep : natToDigitsAux (g + 1) (m + 1) =
        natToDigitsAux g ((m + 1) / 10) ++ [digitChar ((m + 1) % 10)] := rfl
    by_cases h10 : (m + 1) / 10 = 0
    · have hlt : m + 1 < 10 := by omega
      have hmod : (m + 1) % 10 = m + 1 := Nat.mod_eq_of_lt hlt
      rw [hstep, h10, natToDigitsAux_zero, List.nil_append]
      refine ⟨by simp, ?_, ?_⟩
      · intro c hc
        simp at hc
        exact hc ▸ digitChar_isDigit _
      · rw [show digitsVal [digitChar ((m + 1) % 10)] =
            digitVal (digitChar ((m + 1) % 10)) by simp [digitsVal],
          digitVal_digitChar _ (Nat.mod_lt _ (by omega))]
        omega
    · have hq : (m + 1) / 10 < m + 1 := Nat.div_lt_self (by omega) (by omega)
      have hqg : (m + 1) / 10 ≤ g := by omega
      obtain ⟨hne, hdig, hval⟩ := ih ((m + 1) / 10) hq g (by omega) hqg
      rw [hstep]
      refine ⟨by simp, ?_, ?_⟩
      · intro c hc
        rcases List.mem_append.mp hc with hc | hc
        · exact hdig c hc
        · simp at hc
          exact hc ▸ digitChar_isDigit _
      · rw [digitsVal_append_singleton, hval,
          digitVal_digitChar _ (Nat.mod_lt _ (by omega))]
        omega

theorem natToDigits_ne_nil (m : Nat) : natToDigits m ≠ [] := by
  unfold natToDigits
  by_cases h : m = 0
  · simp [h]
  · simp only [h, if_false]
    exact (natToDigitsAux_spec m (m + 1) (by omega) (by omega)).1

theorem natToDigits_all_digits (m : Nat) :
    ∀ c ∈ natToDigits m, c.isDigit = true := by
  unfold natToDigits
  by_cases h : m = 0
  · simp [h]
  · simp only [h, if_false]
    exact (natToDigitsAux_spec m (m + 1) (by omega) (by omega)).2.1

theorem digitsVal_natToDigits (m : Nat) : digitsVal (natToDigits m) = m := by
  unfold natToDigits
  by_cases h : m = 0
  · simp [h]
    decide
  · simp only [h, if_false]
    exact (natToDigitsAux_spec m (m + 1) (by omega) (by omega)).2.2

end CompressDecompressJson

namespace CompressDecompressJson

/-! ## Compression-scheme lemmas -/

theorem decodeGroups_encodeChars (cs : List Char) :
    ∀ fuel, cs.length ≤ fuel →
      decodeGroups fuel (encodeChars cs) = some cs := by
  induction cs with
  | nil => intro fuel _; cases fuel <;> rfl
  | cons c cs ih =>
    intro fuel hf
    obtain ⟨g, rfl⟩ : ∃ g, fuel = g + 1 := ⟨fuel - 1, by simp at hf; omega⟩
    obtain ⟨d, ds', hds⟩ := List.exists_cons_of_ne_nil (natToDigits_ne_nil c.toNat)
    have hstream : encodeChars (c :: cs) =
        d :: (ds' ++ '+' :: encodeChars cs) := by
      simp [encodeChars, encodeChar, hds]
    have hscan := takeWhile_all_append Char.isDigit (natToDigits c.toNat)
      ('+' :: encodeChars cs) (natToDigits_all_digits c.toNat)
      (by intro x hx; simp at hx; subst hx; decide)
    have htake : (d :: (ds' ++ '+' :: encodeChars cs)).takeWhile Char.isDigit =
        natToDigits c.toNat := by
      rw [show d :: (ds' ++ '+' :: encodeChars cs) =
        natToDigits c.toNat ++ '+' :: encodeChars cs by simp [hds]]
      exact hscan.1
    have hdrop : (d :: (ds' ++ '+' :: encodeChars cs)).dropWhile Char.isDigit =
        '+' :: encodeChars cs := by
      rw [show d :: (ds' ++ '+' :: encodeChars cs) =
        natToDigits c.toNat ++ '+' :: encodeChars cs by simp [hds]]
      exact hscan.2
    rw [hstream]
    simp only [decodeGroups, htake, hdrop]
    have hlen : cs.length ≤ g := by simp at hf; omega
    simp [natToDigits_ne_nil c.toNat, ih g hlen, digitsVal_natToDigits,
      Char.ofNat_toNat]

theorem decompress_compress (s : String) :
    decompressFromBase64 (compressToBase64 s) = some s := by
  have hlen : s.data.length ≤ (encodeChars s.data).length := by
    induction s.data with
    | nil => simp [encodeChars]
    | cons c cs ih =>
      have : 1 ≤ (encodeChar c).length := by
        simp [encodeChar]
      simp [encodeChars]
      omega
  show decompressFromBase64 (String.mk ('A' :: encodeChars s.data)) = some s
  simp only [decompressFromBase64]
  simp [decodeGroups_encodeChars s.data _ hlen]

theorem encodeChars_b64 (cs : List Char) :
    ∀ c ∈ encodeChars cs, isB64Char c = true := by
  induction cs with
  | nil => intro c hc; simp [encodeChars] at hc
  | cons x xs ih =>
    intro c hc
    simp only [encodeChars] at hc
    rcases List.mem_append.mp hc with h | h
    · simp only [encodeChar] at h
      rcases List.mem_append.mp h with h | h
      · have hd := natToDigits_all_digits x.toNat c h
        simp [isB64Char, Char.isAlphanum, hd]
      · simp at h
        subst h; decide
    · exact ih c h

theorem compressToBase64_b64 (s : String) :
    ∀ c ∈ (compressToBase64 s).data, isB64Char c = true := by
  show ∀ c ∈ 'A' :: encodeChars s.data, isB64Char c = true
  intro c hc
  rcases List.mem_cons.mp hc with rfl | hc
  · decide
  · exact encodeChars_b64 s.data c hc

end CompressDecompressJson

namespace CompressDecompressJson

/-! ## String-literal round trip -/

theorem parseStringBody_cons_other (c : Char) (h1 : c ≠ '"') (h2 : c ≠ '\\')
    (cs : List Char) :
    parseStringBody (c :: cs) = (parseStringBody cs).map (fun p => (c :: p.1, p.2)) := by
  rw [parseStringBody.eq_def]
  simp [h1, h2]

theorem parseStringBody_quote (rest : List Char) :
    parseStringBody ('"' :: rest) = some ([], rest) := by
  rw [parseStringBody.eq_def]
  simp

theorem parseStringBody_escaped (e u : Char) (h : unescapeChar e = some u)
    (rest : List Char) :
    parseStringBody ('\\' :: e :: rest) =
      (parseStringBody rest).map (fun p => (u :: p.1, p.2)) := by
  rw [parseStringBody.eq_def]
  simp [h]

theorem parseStringBody_escape (cs : List Char) :
    ∀ rest, parseStringBody (escapeChars cs ++ '"' :: rest) = some (cs, rest) := by
  induction cs with
  | nil =>
    intro rest
    show parseStringBody ('"' :: rest) = some ([], rest)
    exact parseStringBody_quote rest
  | cons c cs ih =>
    intro rest
    by_cases h1 : c = '"'
    · subst h1
      show parseStringBody ('\\' :: '"' :: (escapeChars cs ++ '"' :: rest)) = _
      rw [parseStringBody_escaped '"' '"' rfl, ih rest]
      rfl
    · by_cases h2 : c = '\\'
      · subst h2
        show parseStringBody ('\\' :: '\\' :: (escapeChars cs ++ '"' :: rest)) = _
        rw [parseStringBody_escaped '\\' '\\' rfl, ih rest]
        rfl
      · have hstream : escapeChars (c :: cs) ++ '"' :: rest =
            c :: (escapeChars cs ++ '"' :: rest) := by
          simp [escapeChars, escapeChar, h1, h2]
        rw [hstream, parseStringBody_cons_other c h1 h2, ih rest]
        rfl

/-! ## Parser step lemmas

Each lemma unfolds one successful step of the recursive-descent parser, given
the scanned shape of the input stream. -/

theorem pv_step_null (f : Nat) (cs rest : List Char)
    (h : skipWs cs = 'n' :: 'u' :: 'l' :: 'l' :: rest) :
    parseValue (f + 1) cs = some (.null, rest) := by
  simp [parseValue, h]

theorem pv_step_true (f : Nat) (cs rest : List Char)
    (h : skipWs cs = 't' :: 'r' :: 'u' :: 'e' :: rest) :
    parseValue (f + 1) cs = some (.bool true, rest) := by
  simp [parseValue, h]

theorem pv_step_false (f : Nat) (cs rest : List Char)
    (h : skipWs cs = 'f' :: 'a' :: 'l' :: 's' :: 'e' :: rest) :
    parseValue (f + 1) cs = some (.bool false, rest) := by
  simp [parseValue, h]

theorem pv_step_str (f : Nat) (cs rest rest2 : List Char) (body : List Char)
    (h : skipWs cs = '"' :: rest)
    (hp : parseStringBody rest = some (body, rest2)) :
    parseValue (f + 1) cs = some (.str (String.mk body), rest2) := by
  simp [parseValue, h, hp]

theorem pv_step_digit (f : Nat) (cs rest : List Char) (c : Char)
    (h : skipWs cs = c :: rest) (hd : c.isDigit = true) :
    parseValue (f + 1) cs =
      some (.num (digitsVal ((c :: rest).takeWhile Char.isDigit)),
        (c :: rest).dropWhile Char.isDigit) := by
  have h1 := digit_ne c '\x7b' hd (by decide)
  have h2 := digit_ne c '[' hd (by decide)
  have h3 := digit_ne c '"' hd (by decide)
  have h4 := digit_ne c 'n' hd (by decide)
  have h5 := digit_ne c 't' hd (by decide)
  have h6 := digit_ne c 'f' hd (by decide)
  have h7 := digit_ne c '-' hd (by decide)
  simp [parseValue, h, h1, h2, h3, h4, h5, h6, h7, hd]

theorem pv_step_neg (f : Nat) (cs rest : List Char)
    (h : skipWs cs = '-' :: rest)
    (hds : rest.takeWhile Char.isDigit ≠ []) :
    parseValue (f + 1) cs =
      some (.num (-(digitsVal (rest.takeWhile Char.isDigit) : Int)),
        rest.dropWhile Char.isDigit) := by
  simp [parseValue, h, hds]

theorem pv_step_obj_empty (f : Nat) (cs rest rest2 : List Char)
    (h : skipWs cs = '\x7b' :: rest) (h2 : skipWs rest = '\x7d' :: rest2) :
    parseValue (f + 1) cs = some (.obj [], rest2) := by
  simp [parseValue, h, h2]

theorem pv_step_obj (f : Nat) (cs rest rest2 rest3 : List Char) (c2 : Char)
    (kvs : List (String × JsonValue))
    (h : skipWs cs = '\x7b' :: rest) (h2 : skipWs rest = c2 :: rest2)
    (hne : c2 ≠ '\x7d')
    (hm : parseMembersO f rest = some (kvs, rest3)) :
    parseValue (f + 1) cs = some (.obj kvs, rest3) := by
  simp [parseValue, h, h2, hne, hm]

theorem pv_step_arr_empty (f : Nat) (cs rest rest2 : List Char)
    (h : skipWs cs = '[' :: rest) (h2 : skipWs rest = ']' :: rest2) :
    parseValue (f + 1) cs = some (.arr [], rest2) := by
  simp [parseValue, h, h2]

theorem pv_step_arr (f : Nat) (cs rest rest2 rest3 : List Char) (c2 : Char)
    (xs : List JsonValue)
    (h : skipWs cs = '[' :: rest) (h2 : skipWs rest = c2 :: rest2)
    (hne : c2 ≠ ']')
    (hm : parseItemsA f rest = some (xs, rest3)) :
    parseValue (f + 1) cs = some (.arr xs, rest3) := by
  simp [parseValue, h, h2, hne, hm]

theorem pia_step_last (f : Nat) (cs rest rest2 : List Char) (v : JsonValue)
    (hv : parseValue f cs = some (v, rest))
    (h2 : skipWs rest = ']' :: rest2) :
    parseItemsA (f + 1) cs = some ([v], rest2) := by
  simp [parseItemsA, hv, h2]

theorem pia_step_cons (f : Nat) (cs rest rest2 rest3 : List Char) (v : JsonValue)
    (vs : List JsonValue)
    (hv : parseValue f cs = some (v, rest))
    (h2 : skipWs rest = ',' :: rest2)
    (h3 : parseItemsA f rest2 = some (vs, rest3)) :
    parseItemsA (f + 1) cs = some (v :: vs, rest3) := by
  simp [parseItemsA, hv, h2, h3]

theorem pmo_step_last (f : Nat) (cs rest rest1 rest2 rest3 rest4 : List Char)
    (key : List Char) (v : JsonValue)
    (h0 : skipWs cs = '"' :: rest)
    (h1 : parseStringBody rest = some (key, rest1))
    (h2 : skipWs rest1 = ':' :: rest2)
    (h3 : parseValue f rest2 = some (v, rest3))
    (h4 : skipWs rest3 = '\x7d' :: rest4) :
    parseMembersO (f + 1) cs = some ([(String.mk key, v)], rest4) := by
  simp [parseMembersO, h0, h1, h2, h3, h4]

theorem pmo_step_cons (f : Nat) (cs rest rest1 rest2 rest3 rest4 rest5 : List Char)
    (key : List Char) (v : JsonValue) (kvs : List (String × JsonValue))
    (h0 : skipWs cs = '"' :: rest)
    (h1 : parseStringBody rest = some (key, rest1))
    (h2 : skipWs rest1 = ':' :: rest2)
    (h3 : parseValue f rest2 = some (v, rest3))
    (h4 : skipWs rest3 = ',' :: rest4)
    (h5 : parseMembersO f rest4 = some (kvs, rest5)) :
    parseMembersO (f + 1) cs = some ((String.mk key, v) :: kvs, rest5) := by
  simp [parseMembersO, h0, h1, h2, h3, h4, h5]

end CompressDecompressJson

namespace CompressDecompressJson

/-! ## Auxiliary facts about the renderers -/

theorem string_mk_data (s : String) : String.mk s.data = s := by
  cases s; rfl

theorem isWsRun_jsonWs (p : Bool) (lvl : Nat) : IsWsRun (jsonWs p lvl) := by
  intro c hc
  cases p with
  | false => simp [jsonWs] at hc
  | true =>
    simp [jsonWs] at hc
    rcases hc with rfl | ⟨_, rfl⟩ <;> decide

theorem isWsRun_colonWs (p : Bool) : IsWsRun (colonWs p) := by
  intro c hc
  cases p with
  | false => simp [colonWs] at hc
  | true =>
    simp [colonWs] at hc
    subst hc; decide

theorem delimAfter_jsonWs_cons (p : Bool) (lvl : Nat) (c : Char)
    (hc : c.isDigit = false) (rest : List Char) :
    DelimAfter (jsonWs p lvl ++ c :: rest) := by
  cases p with
  | false => exact delimAfter_cons hc rest
  | true =>
    show DelimAfter (('\n' :: List.replicate (2 * lvl) ' ') ++ c :: rest)
    exact delimAfter_cons (by decide) _

theorem gsize_pos (v : JsonValue) : 0 < gsize v := by
  cases v with
  | null => simp [gsize]
  | bool b => simp [gsize]
  | num n => simp [gsize]
  | str s => simp [gsize]
  | arr xs =>
    cases xs with
    | nil => simp [gsize]
    | cons x xs => simp [gsize]
  | obj kvs =>
    cases kvs with
    | nil => simp [gsize]
    | cons kv kvs => obtain ⟨k, v⟩ := kv; simp [gsize]

theorem gsizeItems_split (x y : JsonValue) (ys : List JsonValue) :
    gsizeItems x (y :: ys) = 1 + gsize x + gsizeItems y ys := by
  simp [gsizeItems]

theorem gsizeMembers_split (v : JsonValue) (k2 : String) (v2 : JsonValue)
    (kvs : List (String × JsonValue)) :
    gsizeMembers v ((k2, v2) :: kvs) = 1 + gsize v + gsizeMembers v2 kvs := by
  simp [gsizeMembers]

theorem renderV_head (p : Bool) (lvl : Nat) (v : JsonValue) :
    ∃ c cs, renderV p lvl v = c :: cs ∧ isWsChar c = false ∧ c ≠ ']' ∧ c ≠ '\x7d' := by
  cases v with
  | null =>
    exact ⟨'n', ['u', 'l', 'l'], by simp only [renderV],
      by decide, by decide, by decide⟩
  | bool b =>
    cases b with
    | true =>
      exact ⟨'t', ['r', 'u', 'e'], by simp only [renderV],
        by decide, by decide, by decide⟩
    | false =>
      exact ⟨'f', ['a', 'l', 's', 'e'], by simp only [renderV],
        by decide, by decide, by decide⟩
  | num n =>
    by_cases hneg : n < 0
    · exact ⟨'-', natToDigits n.natAbs, by simp [renderV, renderInt, hneg],
        by decide, by decide, by decide⟩
    · obtain ⟨d, ds, hds⟩ := List.exists_cons_of_ne_nil (natToDigits_ne_nil n.toNat)
      have hd : d.isDigit = true :=
        natToDigits_all_digits n.toNat d (by rw [hds]; exact List.mem_cons_self d ds)
      refine ⟨d, ds, by simp [renderV, renderInt, hneg, hds], digit_not_ws d hd,
        digit_ne d ']' hd (by decide), digit_ne d '\x7d' hd (by decide)⟩
  | str s =>
    exact ⟨'"', escapeChars s.data ++ ['"'], by simp [renderV, renderStr],
      by decide, by decide, by decide⟩
  | arr xs =>
    cases xs with
    | nil => exact ⟨'[', [']'], by simp [renderV], by decide, by decide, by decide⟩
    | cons x xs =>
      exact ⟨'[', jsonWs p (lvl + 1) ++ renderItemsA p (lvl + 1) x xs ++
        (jsonWs p lvl ++ [']']), by simp [renderV], by decide, by decide, by decide⟩
  | obj kvs =>
    cases kvs with
    | nil => exact ⟨'\x7b', ['\x7d'], by simp [renderV], by decide, by decide, by decide⟩
    | cons kv kvs =>
      obtain ⟨k, v⟩ := kv
      exact ⟨'\x7b', jsonWs p (lvl + 1) ++ renderMembersO p (lvl + 1) k v kvs ++
        (jsonWs p lvl ++ ['\x7d']), by simp [renderV], by decide, by decide, by decide⟩

theorem renderItemsA_head (p : Bool) (lvl : Nat) (x : JsonValue) (xs : List JsonValue) :
    ∃ c cs, renderItemsA p lvl x xs = c :: cs ∧ isWsChar c = false ∧ c ≠ ']' ∧ c ≠ '\x7d' := by
  obtain ⟨c, cs, hr, hw, h1, h2⟩ := renderV_head p lvl x
  cases xs with
  | nil => exact ⟨c, cs, by simp [renderItemsA, hr], hw, h1, h2⟩
  | cons y ys =>
    exact ⟨c, cs ++ ',' :: (jsonWs p lvl ++ renderItemsA p lvl y ys),
      by simp [renderItemsA, hr], hw, h1, h2⟩

theorem renderMembersO_head (p : Bool) (lvl : Nat) (k : String) (v : JsonValue)
    (kvs : List (String × JsonValue)) :
    ∃ cs, renderMembersO p lvl k v kvs = '"' :: cs := by
  cases kvs with
  | nil =>
    exact ⟨escapeChars k.data ++ '"' :: ':' :: (colonWs p ++ renderV p lvl v),
      by simp [renderMembersO, renderStr]⟩
  | cons kv kvs =>
    obtain ⟨k2, v2⟩ := kv
    exact ⟨escapeChars k.data ++ '"' :: ':' ::
        (colonWs p ++ (renderV p lvl v ++ ',' :: (jsonWs p lvl ++ renderMembersO p lvl k2 v2 kvs))),
      by simp [renderMembersO, renderStr]⟩

end CompressDecompressJson

namespace CompressDecompressJson

theorem gsizeItems_pos (x : JsonValue) (xs : List JsonValue) : 0 < gsizeItems x xs := by
  cases xs with
  | nil => simp [gsizeItems]
  | cons y ys => simp [gsizeItems]

theorem gsizeMembers_pos (v : JsonValue) (kvs : List (String × JsonValue)) :
    0 < gsizeMembers v kvs := by
  cases kvs with
  | nil => simp [gsizeMembers]
  | cons kv kvs => obtain ⟨k2, v2⟩ := kv; simp [gsizeMembers]

/-- Central round-trip lemma: with enough fuel, the parser consumes any
rendering (compact or pretty, at any indentation level) of a value, of a
nonempty item run, or of a nonempty member run, and returns exactly the
rendered data, leaving the rest of the stream untouched. -/
theorem parse_render (fuel : Nat) :
    (∀ (v : JsonValue) (p : Bool) (lvl : Nat) (ws rest : List Char),
      IsWsRun ws → DelimAfter rest → gsize v ≤ fuel →
      parseValue fuel (ws ++ (renderV p lvl v ++ rest)) = some (v, rest)) ∧
    (∀ (x : JsonValue) (xs : List JsonValue) (p : Bool) (lvl lvl2 : Nat)
        (ws rest : List Char),
      IsWsRun ws → gsizeItems x xs ≤ fuel →
      parseItemsA fuel
          (ws ++ (renderItemsA p lvl x xs ++ (jsonWs p lvl2 ++ ']' :: rest))) =
        some (x :: xs, rest)) ∧
    (∀ (k : String) (v : JsonValue) (kvs : List (String × JsonValue)) (p : Bool)
        (lvl lvl2 : Nat) (ws rest : List Char),
      IsWsRun ws → gsizeMembers v kvs ≤ fuel →
      parseMembersO fuel
          (ws ++ (renderMembersO p lvl k v kvs ++ (jsonWs p lvl2 ++ '\x7d' :: rest))) =
        some ((k, v) :: kvs, rest)) := by
  induction fuel with
  | zero =>
    refine ⟨?_, ?_, ?_⟩
    · intro v _ _ _ _ _ _ hsz
      have := gsize_pos v
      omega
    · intro x xs _ _ _ _ _ _ hsz
      have := gsizeItems_pos x xs
      omega
    · intro k v kvs _ _ _ _ _ _ hsz
      have := gsizeMembers_pos v kvs
      omega
  | succ f ih =>
    obtain ⟨ihV, ihA, ihO⟩ := ih
    refine ⟨?_, ?_, ?_⟩
    · -- values
      intro v p lvl ws rest hws hrest hsz
      cases v with
      | null =>
        have hr : renderV p lvl .null = ['n', 'u', 'l', 'l'] := by
          simp only [renderV]
        refine pv_step_null f _ rest ?_
        rw [hr]
        exact skipWs_concat ws 'n' ('u' :: 'l' :: 'l' :: rest) hws (by decide)
      | bool b =>
        cases b with
        | true =>
          have hr : renderV p lvl (.bool true) = ['t', 'r', 'u', 'e'] := by
            simp only [renderV]
          refine pv_step_true f _ rest ?_
          rw [hr]
          exact skipWs_concat ws 't' ('r' :: 'u' :: 'e' :: rest) hws (by decide)
        | false =>
          have hr : renderV p lvl (.bool false) = ['f', 'a', 'l', 's', 'e'] := by
            simp only [renderV]
          refine pv_step_false f _ rest ?_
          rw [hr]
          exact skipWs_concat ws 'f' ('a' :: 'l' :: 's' :: 'e' :: rest) hws (by decide)
      | num n =>
        by_cases hneg : n < 0
        · have hr : renderV p lvl (.num n) = '-' :: natToDigits n.natAbs := by
            simp [renderV, renderInt, hneg]
          have hscan := takeWhile_all_append Char.isDigit (natToDigits n.natAbs) rest
            (natToDigits_all_digits _) hrest
          have hskip : skipWs (ws ++ (renderV p lvl (.num n) ++ rest)) =
              '-' :: (natToDigits n.natAbs ++ rest) := by
            rw [hr]
            exact skipWs_concat ws '-' (natToDigits n.natAbs ++ rest) hws (by decide)
          rw [pv_step_neg f _ _ hskip (by rw [hscan.1]; exact natToDigits_ne_nil _)]
          rw [hscan.1, hscan.2, digitsVal_natToDigits]
          have hn : (-(n.natAbs : Int)) = n := by omega
          rw [hn]
        · have hr : renderV p lvl (.num n) = natToDigits n.toNat := by
            simp [renderV, renderInt, hneg]
          obtain ⟨d, ds, hds⟩ := List.exists_cons_of_ne_nil (natToDigits_ne_nil n.toNat)
          have hd : d.isDigit = true :=
            natToDigits_all_digits n.toNat d (by rw [hds]; exact List.mem_cons_self d ds)
          have hskip : skipWs (ws ++ (renderV p lvl (.num n) ++ rest)) =
              d :: (ds ++ rest) := by
            rw [hr, hds]
            exact skipWs_concat ws d (ds ++ rest) hws (digit_not_ws d hd)
          rw [pv_step_digit f _ _ d hskip hd]
          have hre : d :: (ds ++ rest) = natToDigits n.toNat ++ rest := by
            rw [hds]; rfl
          have hscan := takeWhile_all_append Char.isDigit (natToDigits n.toNat) rest
            (natToDigits_all_digits _) hrest
          rw [hre, hscan.1, hscan.2, digitsVal_natToDigits]
          have hn : ((n.toNat : Int)) = n := by omega
          rw [hn]
      | str s =>
        have hr : renderV p lvl (.str s) ++ rest =
            '"' :: (escapeChars s.data ++ '"' :: rest) := by
          simp [renderV, renderStr]
        have hskip : skipWs (ws ++ (renderV p lvl (.str s) ++ rest)) =
            '"' :: (escapeChars s.data ++ '"' :: rest) := by
          rw [hr]
          exact skipWs_concat ws '"' _ hws (by decide)
        rw [pv_step_str f _ _ rest s.data hskip (parseStringBody_escape s.data rest),
          string_mk_data]
      | arr xs =>
        cases xs with
        | nil =>
          have hr : renderV p lvl (.arr []) = ['[', ']'] := by simp [renderV]
          refine pv_step_arr_empty f _ (']' :: rest) rest ?_ ?_
          · rw [hr]
            exact skipWs_concat ws '[' (']' :: rest) hws (by decide)
          · exact skipWs_cons_of_neg ']' rest (by decide)
        | cons x xs =>
          have hsz' : gsizeItems x xs ≤ f := by
            have hg : gsize (JsonValue.arr (x :: xs)) = 1 + gsizeItems x xs := by
              simp [gsize]
            omega
          have hIN : (jsonWs p (lvl + 1) ++ renderItemsA p (lvl + 1) x xs ++
                (jsonWs p lvl ++ [']'])) ++ rest =
              jsonWs p (lvl + 1) ++ (renderItemsA p (lvl + 1) x xs ++
                (jsonWs p lvl ++ ']' :: rest)) := by simp
          obtain ⟨c0, cs0, hri, hnw, hne1, _⟩ := renderItemsA_head p (lvl + 1) x xs
          have hr : renderV p lvl (.arr (x :: xs)) = '[' ::
              (jsonWs p (lvl + 1) ++ renderItemsA p (lvl + 1) x xs ++
                (jsonWs p lvl ++ [']'])) := by simp [renderV]
          have hskip : skipWs (ws ++ (renderV p lvl (.arr (x :: xs)) ++ rest)) =
              '[' :: ((jsonWs p (lvl + 1) ++ renderItemsA p (lvl + 1) x xs ++
                (jsonWs p lvl ++ [']'])) ++ rest) := by
            rw [hr]
            exact skipWs_concat ws '[' _ hws (by decide)
          have hskip2 : skipWs ((jsonWs p (lvl + 1) ++ renderItemsA p (lvl + 1) x xs ++
                (jsonWs p lvl ++ [']'])) ++ rest) =
              c0 :: (cs0 ++ (jsonWs p lvl ++ ']' :: rest)) := by
            rw [hIN, hri]
            exact skipWs_concat (jsonWs p (lvl + 1)) c0 _ (isWsRun_jsonWs p (lvl + 1)) hnw
          have hm : parseItemsA f ((jsonWs p (lvl + 1) ++ renderItemsA p (lvl + 1) x xs ++
                (jsonWs p lvl ++ [']'])) ++ rest) = some (x :: xs, rest) := by
            rw [hIN]
            exact ihA x xs p (lvl + 1) lvl (jsonWs p (lvl + 1)) rest
              (isWsRun_jsonWs p (lvl + 1)) hsz'
          exact pv_step_arr f _ _ _ _ c0 (x :: xs) hskip hskip2 hne1 hm
      | obj kvs =>
        cases kvs with
        | nil =>
          have hr : renderV p lvl (.obj []) = ['\x7b', '\x7d'] := by simp [renderV]
          refine pv_step_obj_empty f _ ('\x7d' :: rest) rest ?_ ?_
          · rw [hr]
            exact skipWs_concat ws '\x7b' ('\x7d' :: rest) hws (by decide)
          · exact skipWs_cons_of_neg '\x7d' rest (by decide)
        | cons kv kvs =>
          obtain ⟨k, v⟩ := kv
          have hsz' : gsizeMembers v kvs ≤ f := by
            have hg : gsize (JsonValue.obj ((k, v) :: kvs)) = 1 + gsizeMembers v kvs := by
              simp [gsize]
            omega
          have hIN : (jsonWs p (lvl + 1) ++ renderMembersO p (lvl + 1) k v kvs ++
                (jsonWs p lvl ++ ['\x7d'])) ++ rest =
              jsonWs p (lvl + 1) ++ (renderMembersO p (lvl + 1) k v kvs ++
                (jsonWs p lvl ++ '\x7d' :: rest)) := by simp
          obtain ⟨cs0, hri⟩ := renderMembersO_head p (lvl + 1) k v kvs
          have hr : renderV p lvl (.obj ((k, v) :: kvs)) = '\x7b' ::
              (jsonWs p (lvl + 1) ++ renderMembersO p (lvl + 1) k v kvs ++
                (jsonWs p lvl ++ ['\x7d'])) := by simp [renderV]
          have hskip : skipWs (ws ++ (renderV p lvl (.obj ((k, v) :: kvs)) ++ rest)) =
              '\x7b' :: ((jsonWs p (lvl + 1) ++ renderMembersO p (lvl + 1) k v kvs ++
                (jsonWs p lvl ++ ['\x7d'])) ++ rest) := by
            rw [hr]
            exact skipWs_concat ws '\x7b' _ hws (by decide)
          have hskip2 : skipWs ((jsonWs p (lvl + 1) ++ renderMembersO p (lvl + 1) k v kvs ++
                (jsonWs p lvl ++ ['\x7d'])) ++ rest) =
              '"' :: (cs0 ++ (jsonWs p lvl ++ '\x7d' :: rest)) := by
            rw [hIN, hri]
            exact skipWs_concat (jsonWs p (lvl + 1)) '"' _ (isWsRun_jsonWs p (lvl + 1))
              (by decide)
          have hm : parseMembersO f ((jsonWs p (lvl + 1) ++
                renderMembersO p (lvl + 1) k v kvs ++
                (jsonWs p lvl ++ ['\x7d'])) ++ rest) = some ((k, v) :: kvs, rest) := by
            rw [hIN]
            exact ihO k v kvs p (lvl + 1) lvl (jsonWs p (lvl + 1)) rest
              (isWsRun_jsonWs p (lvl + 1)) hsz'
          exact pv_step_obj f _ _ _ _ '"' ((k, v) :: kvs) hskip hskip2 (by decide) hm
    · -- array item runs
      intro x xs p lvl lvl2 ws rest hws hsz
      cases xs with
      | nil =>
        have hr : renderItemsA p lvl x [] = renderV p lvl x := by simp [renderItemsA]
        have hsz' : gsize x ≤ f := by
          have hg : gsizeItems x ([] : List JsonValue) = 1 + gsize x := by
            simp [gsizeItems]
          omega
        have hV : parseValue f (ws ++ (renderItemsA p lvl x [] ++
            (jsonWs p lvl2 ++ ']' :: rest))) = some (x, jsonWs p lvl2 ++ ']' :: rest) := by
          rw [hr]
          exact ihV x p lvl ws (jsonWs p lvl2 ++ ']' :: rest) hws
            (delimAfter_jsonWs_cons p lvl2 ']' (by decide) rest) hsz'
        refine pia_step_last f _ _ rest x hV ?_
        exact skipWs_concat (jsonWs p lvl2) ']' rest (isWsRun_jsonWs p lvl2) (by decide)
      | cons y ys =>
        have hg := gsizeItems_split x y ys
        have hx := gsize_pos x
        have hszx : gsize x ≤ f := by omega
        have hszy : gsizeItems y ys ≤ f := by omega
        have hr : renderItemsA p lvl x (y :: ys) ++ (jsonWs p lvl2 ++ ']' :: rest) =
            renderV p lvl x ++ (',' :: (jsonWs p lvl ++ (renderItemsA p lvl y ys ++
              (jsonWs p lvl2 ++ ']' :: rest)))) := by
          simp [renderItemsA]
        have hV : parseValue f (ws ++ (renderItemsA p lvl x (y :: ys) ++
            (jsonWs p lvl2 ++ ']' :: rest))) =
            some (x, ',' :: (jsonWs p lvl ++ (renderItemsA p lvl y ys ++
              (jsonWs p lvl2 ++ ']' :: rest)))) := by
          rw [hr]
          exact ihV x p lvl ws _ hws (delimAfter_cons (by decide) _) hszx
        have h3 : parseItemsA f (jsonWs p lvl ++ (renderItemsA p lvl y ys ++
            (jsonWs p lvl2 ++ ']' :: rest))) = some (y :: ys, rest) :=
          ihA y ys p lvl lvl2 (jsonWs p lvl) rest (isWsRun_jsonWs p lvl) hszy
        exact pia_step_cons f _ _ _ rest x (y :: ys) hV
          (skipWs_cons_of_neg ',' _ (by decide)) h3
    · -- object member runs
      intro k v kvs p lvl lvl2 ws rest hws hsz
      cases kvs with
      | nil =>
        have hszv : gsize v ≤ f := by
          have hg : gsizeMembers v ([] : List (String × JsonValue)) = 1 + gsize v := by
            simp [gsizeMembers]
          omega
        have hr : renderMembersO p lvl k v [] ++ (jsonWs p lvl2 ++ '\x7d' :: rest) =
            '"' :: (escapeChars k.data ++ '"' :: (':' :: (colonWs p ++
              (renderV p lvl v ++ (jsonWs p lvl2 ++ '\x7d' :: rest))))) := by
          simp [renderMembersO, renderStr]
        have h0 : skipWs (ws ++ (renderMembersO p lvl k v [] ++
            (jsonWs p lvl2 ++ '\x7d' :: rest))) =
            '"' :: (escapeChars k.data ++ '"' :: (':' :: (colonWs p ++
              (renderV p lvl v ++ (jsonWs p lvl2 ++ '\x7d' :: rest))))) := by
          rw [hr]
          exact skipWs_concat ws '"' _ hws (by decide)
        have h1 := parseStringBody_escape k.data (':' :: (colonWs p ++
          (renderV p lvl v ++ (jsonWs p lvl2 ++ '\x7d' :: rest))))
        have h2 : skipWs (':' :: (colonWs p ++ (renderV p lvl v ++
            (jsonWs p lvl2 ++ '\x7d' :: rest)))) = ':' :: (colonWs p ++
            (renderV p lvl v ++ (jsonWs p lvl2 ++ '\x7d' :: rest))) :=
          skipWs_cons_of_neg ':' _ (by decide)
        have h3 : parseValue f (colonWs p ++ (renderV p lvl v ++
            (jsonWs p lvl2 ++ '\x7d' :: rest))) =
            some (v, jsonWs p lvl2 ++ '\x7d' :: rest) :=
          ihV v p lvl (colonWs p) _ (isWsRun_colonWs p)
            (delimAfter_jsonWs_cons p lvl2 '\x7d' (by decide) rest) hszv
        have h4 : skipWs (jsonWs p lvl2 ++ '\x7d' :: rest) = '\x7d' :: rest :=
          skipWs_concat (jsonWs p lvl2) '\x7d' rest (isWsRun_jsonWs p lvl2) (by decide)
        rw [pmo_step_last f _ _ _ _ _ rest k.data v h0 h1 h2 h3 h4, string_mk_data]
      | cons kv kvs2 =>
        obtain ⟨k2, v2⟩ := kv
        have hg := gsizeMembers_split v k2 v2 kvs2
        have hv := gsize_pos v
        have hszv : gsize v ≤ f := by omega
        have hsz2 : gsizeMembers v2 kvs2 ≤ f := by omega
        have hr : renderMembersO p lvl k v ((k2, v2) :: kvs2) ++
              (jsonWs p lvl2 ++ '\x7d' :: rest) =
            '"' :: (escapeChars k.data ++ '"' :: (':' :: (colonWs p ++
              (renderV p lvl v ++ (',' :: (jsonWs p lvl ++
                (renderMembersO p lvl k2 v2 kvs2 ++
                  (jsonWs p lvl2 ++ '\x7d' :: rest)))))))) := by
          simp [renderMembersO, renderStr]
        have h0 : skipWs (ws ++ (renderMembersO p lvl k v ((k2, v2) :: kvs2) ++
            (jsonWs p lvl2 ++ '\x7d' :: rest))) =
            '"' :: (escapeChars k.data ++ '"' :: (':' :: (colonWs p ++
              (renderV p lvl v ++ (',' :: (jsonWs p lvl ++
                (renderMembersO p lvl k2 v2 kvs2 ++
                  (jsonWs p lvl2 ++ '\x7d' :: rest)))))))) := by
          rw [hr]
          exact skipWs_concat ws '"' _ hws (by decide)
        have h1 := parseStringBody_escape k.data (':' :: (colonWs p ++
          (renderV p lvl v ++ (',' :: (jsonWs p lvl ++
            (renderMembersO p lvl k2 v2 kvs2 ++ (jsonWs p lvl2 ++ '\x7d' :: rest)))))))
        have h2 : skipWs (':' :: (colonWs p ++ (renderV p lvl v ++ (',' ::
            (jsonWs p lvl ++ (renderMembersO p lvl k2 v2 kvs2 ++
              (jsonWs p lvl2 ++ '\x7d' :: rest))))))) =
            ':' :: (colonWs p ++ (renderV p lvl v ++ (',' ::
            (jsonWs p lvl ++ (renderMembersO p lvl k2 v2 kvs2 ++
              (jsonWs p lvl2 ++ '\x7d' :: rest)))))) :=
          skipWs_cons_of_neg ':' _ (by decide)
        have h3 : parseValue f (colonWs p ++ (renderV p lvl v ++ (',' ::
            (jsonWs p lvl ++ (renderMembersO p lvl k2 v2 kvs2 ++
              (jsonWs p lvl2 ++ '\x7d' :: rest)))))) =
            some (v, ',' :: (jsonWs p lvl ++ (renderMembersO p lvl k2 v2 kvs2 ++
              (jsonWs p lvl2 ++ '\x7d' :: rest)))) :=
          ihV v p lvl (colonWs p) _ (isWsRun_colonWs p)
            (delimAfter_cons (by decide) _) hszv
        have h4 : skipWs (',' :: (jsonWs p lvl ++ (renderMembersO p lvl k2 v2 kvs2 ++
            (jsonWs p lvl2 ++ '\x7d' :: rest)))) =
            ',' :: (jsonWs p lvl ++ (renderMembersO p lvl k2 v2 kvs2 ++
            (jsonWs p lvl2 ++ '\x7d' :: rest))) :=
          skipWs_cons_of_neg ',' _ (by decide)
        have h5 : parseMembersO f (jsonWs p lvl ++ (renderMembersO p lvl k2 v2 kvs2 ++
            (jsonWs p lvl2 ++ '\x7d' :: rest))) = some ((k2, v2) :: kvs2, rest) :=
          ihO k2 v2 kvs2 p lvl lvl2 (jsonWs p lvl) rest (isWsRun_jsonWs p lvl) hsz2
        rw [pmo_step_cons f _ _ _ _ _ _ _ k.data v ((k2, v2) :: kvs2) h0 h1 h2 h3 h4 h5,
          string_mk_data]

end CompressDecompressJson

namespace CompressDecompressJson

/-- Renderings are at least as long as the fuel the parser needs for them, so
length-based fuel always suffices. -/
theorem gsize_le_render :
    ∀ n : Nat,
      (∀ v, sizeOf v ≤ n → ∀ (p : Bool) (lvl : Nat),
        gsize v ≤ (renderV p lvl v).length) ∧
      (∀ x xs, sizeOf x + sizeOf xs ≤ n → ∀ (p : Bool) (lvl : Nat),
        gsizeItems x xs ≤ 1 + (renderItemsA p lvl x xs).length) ∧
      (∀ k v kvs, sizeOf v + sizeOf kvs ≤ n → ∀ (p : Bool) (lvl : Nat),
        gsizeMembers v kvs ≤ 1 + (renderMembersO p lvl k v kvs).length) := by
  intro n
  induction n using Nat.strong_induction_on with
  | _ n ih =>
    refine ⟨?_, ?_, ?_⟩
    · intro v hv p lvl
      cases v with
      | null =>
        have hg : gsize JsonValue.null = 1 := by simp [gsize]
        have hr : (renderV p lvl .null).length = 4 := by
          simp only [renderV]
          decide
        omega
      | bool b =>
        cases b with
        | true =>
          have hg : gsize (JsonValue.bool true) = 1 := by simp [gsize]
          have hr : (renderV p lvl (.bool true)).length = 4 := by
            simp only [renderV]
            decide
          omega
        | false =>
          have hg : gsize (JsonValue.bool false) = 1 := by simp [gsize]
          have hr : (renderV p lvl (.bool false)).length = 5 := by
            simp only [renderV]
            decide
          omega
      | num m =>
        have h1 : 1 ≤ (renderInt m).length := by
          by_cases hneg : m < 0
          · simp [renderInt, hneg]
          · simp only [renderInt, hneg, if_false]
            exact List.length_pos.mpr (natToDigits_ne_nil m.toNat)
        have hr : (renderV p lvl (.num m)).length = (renderInt m).length := by
          simp [renderV]
        have hg : gsize (JsonValue.num m) = 1 := by simp [gsize]
        omega
      | str s =>
        have hg : gsize (JsonValue.str s) = 1 := by simp [gsize]
        have hr : (renderV p lvl (.str s)).length =
            (escapeChars s.data).length + 2 := by
          simp [renderV, renderStr]
        omega
      | arr xs =>
        cases xs with
        | nil => simp [gsize, renderV]
        | cons x xs =>
          have hm : sizeOf x + sizeOf xs < n := by
            have : sizeOf (JsonValue.arr (x :: xs)) = 1 + (1 + sizeOf x + sizeOf xs) := by
              simp
            omega
          have hga := (ih (sizeOf x + sizeOf xs) hm).2.1 x xs (Nat.le_refl _) p (lvl + 1)
          have hg : gsize (JsonValue.arr (x :: xs)) = 1 + gsizeItems x xs := by
            simp [gsize]
          have hr : (renderV p lvl (.arr (x :: xs))).length =
              (jsonWs p (lvl + 1)).length + (renderItemsA p (lvl + 1) x xs).length +
              (jsonWs p lvl).length + 2 := by
            simp [renderV]
            omega
          omega
      | obj kvs =>
        cases kvs with
        | nil => simp [gsize, renderV]
        | cons kv kvs =>
          obtain ⟨k, v⟩ := kv
          have hm : sizeOf v + sizeOf kvs < n := by
            have : sizeOf (JsonValue.obj ((k, v) :: kvs)) =
                1 + (1 + (1 + sizeOf k + sizeOf v) + sizeOf kvs) := by
              simp
            omega
          have hgo := (ih (sizeOf v + sizeOf kvs) hm).2.2 k v kvs (Nat.le_refl _) p (lvl + 1)
          have hg : gsize (JsonValue.obj ((k, v) :: kvs)) = 1 + gsizeMembers v kvs := by
            simp [gsize]
          have hr : (renderV p lvl (.obj ((k, v) :: kvs))).length =
              (jsonWs p (lvl + 1)).length + (renderMembersO p (lvl + 1) k v kvs).length +
              (jsonWs p lvl).length + 2 := by
            simp [renderV]
            omega
          omega
    · intro x xs hx p lvl
      cases xs with
      | nil =>
        have hm : sizeOf x < n := by
          have : sizeOf ([] : List JsonValue) = 1 := by simp
          omega
        have hgv := (ih (sizeOf x) hm).1 x (Nat.le_refl _) p lvl
        have hg : gsizeItems x ([] : List JsonValue) = 1 + gsize x := by
          simp [gsizeItems]
        have hr : (renderItemsA p lvl x []).length = (renderV p lvl x).length := by
          simp [renderItemsA]
        omega
      | cons y ys =>
        have hsx : sizeOf x < n := by
          have : sizeOf (y :: ys) = 1 + sizeOf y + sizeOf ys := by simp
          omega
        have hsy : sizeOf y + sizeOf ys < n := by
          have : sizeOf (y :: ys) = 1 + sizeOf y + sizeOf ys := by simp
          omega
        have hgv := (ih (sizeOf x) hsx).1 x (Nat.le_refl _) p lvl
        have hga := (ih (sizeOf y + sizeOf ys) hsy).2.1 y ys (Nat.le_refl _) p lvl
        have hg := gsizeItems_split x y ys
        have hr : (renderItemsA p lvl x (y :: ys)).length =
            (renderV p lvl x).length + 1 + (jsonWs p lvl).length +
            (renderItemsA p lvl y ys).length := by
          simp [renderItemsA]
          omega
        omega
    · intro k v kvs hv p lvl
      cases kvs with
      | nil =>
        have hm : sizeOf v < n := by
          have : sizeOf ([] : List (String × JsonValue)) = 1 := by simp
          omega
        have hgv := (ih (sizeOf v) hm).1 v (Nat.le_refl _) p lvl
        have hg : gsizeMembers v ([] : List (String × JsonValue)) = 1 + gsize v := by
          simp [gsizeMembers]
        have hr : (renderMembersO p lvl k v []).length =
            (escapeChars k.data).length + 2 + 1 + (colonWs p).length +
            (renderV p lvl v).length := by
          simp [renderMembersO, renderStr]
          omega
        omega
      | cons kv kvs2 =>
        obtain ⟨k2, v2⟩ := kv
        have hsv : sizeOf v < n := by
          have : sizeOf ((k2, v2) :: kvs2) =
              1 + (1 + sizeOf k2 + sizeOf v2) + sizeOf kvs2 := by simp
          omega
        have hs2 : sizeOf v2 + sizeOf kvs2 < n := by
          have : sizeOf ((k2, v2) :: kvs2) =
              1 + (1 + sizeOf k2 + sizeOf v2) + sizeOf kvs2 := by simp
          omega
        have hgv := (ih (sizeOf v) hsv).1 v (Nat.le_refl _) p lvl
        have hgo := (ih (sizeOf v2 + sizeOf kvs2) hs2).2.2 k2 v2 kvs2 (Nat.le_refl _) p lvl
        have hg := gsizeMembers_split v k2 v2 kvs2
        have hr : (renderMembersO p lvl k v ((k2, v2) :: kvs2)).length =
            (escapeChars k.data).length + 2 + 1 + (colonWs p).length +
            (renderV p lvl v).length + 1 + (jsonWs p lvl).length +
            (renderMembersO p lvl k2 v2 kvs2).length := by
          simp [renderMembersO, renderStr]
          omega
        omega

/-- Round trip of the JSON collaborator: parsing any rendering (compact or
pretty) of a value gives back exactly that value. -/
theorem parseJson_render (v : JsonValue) (p : Bool) :
    parseJson (String.mk (renderV p 0 v)) = some v := by
  have hfuel : gsize v ≤ (renderV p 0 v).length + 1 := by
    have := (gsize_le_render (sizeOf v)).1 v (Nat.le_refl _) p 0
    omega
  have hmain := (parse_render ((renderV p 0 v).length + 1)).1 v p 0 [] []
    isWsRun_nil delimAfter_nil hfuel
  have hmain' : parseValue ((renderV p 0 v).length + 1) (renderV p 0 v) =
      some (v, []) := by
    simpa using hmain
  have hdata : (String.mk (renderV p 0 v)).data = renderV p 0 v := rfl
  simp [parseJson, hdata, hmain', skipWs]

/-- Round trip at the `String` level used by the transform engine. -/
theorem parseJson_stringifyCompact (v : JsonValue) :
    parseJson (stringifyCompact v) = some v :=
  parseJson_render v false

/-- Round trip for the pretty form produced by decompression. -/
theorem parseJson_stringifyPretty (v : JsonValue) :
    parseJson (stringifyPretty v) = some v :=
  parseJson_render v true

end CompressDecompressJson

namespace CompressDecompressJson

/-- C3: the classifier equals the specification's reference definition, probes
attempted in the spec's order. -/
theorem c3_classifier_matches_reference (input : String) :
    CompressionService.analyzeData input = classifySpec input := by
  unfold CompressionService.analyzeData classifySpec
  by_cases he : trimString input = ""
  · simp [he]
  · simp only [he, if_false]
    cases hp : parseJson (trimString input) with
    | none => simp
    | some v =>
      by_cases hc : isComposite v <;> simp [hc]

end CompressDecompressJson

namespace CompressDecompressJson

/-- C1: for every composite structured value, compressing its serialization
succeeds with the encoded string, decompressing that encoding succeeds with
the pretty-printed text, and that text parses back to a value structurally
equal to the original — in either execution mode. -/
theorem c1_round_trip (v : JsonValue) (u1 u2 : Bool) (h : isComposite v = true) :
    CompressionService.processDataAsync .compress (stringifyCompact v) u1 true =
      .ok (compressToBase64 (stringifyCompact v)) ∧
    CompressionService.processDataAsync .decompress
        (compressToBase64 (stringifyCompact v)) u2 true =
      .ok (stringifyPretty v) ∧
    parseJson (stringifyPretty v) = some v := by
  have hparse := parseJson_stringifyCompact v
  have hparseP := parseJson_stringifyPretty v
  have hdec := decompress_compress (stringifyCompact v)
  refine ⟨?_, ?_, hparseP⟩
  · cases u1 <;>
      simp [CompressionService.processDataAsync, CompressionService.runSync,
        workerOnMessage, CompressionService.compressJsonSync, hparse]
  · cases u2 <;>
      simp [CompressionService.processDataAsync, CompressionService.runSync,
        CompressionService.decompressJsonSync, workerOnMessage, hdec, hparse]

/-- Witness for C1 at the composite value of the spec's concrete scenario. -/
theorem c1_round_trip_witness :
    isComposite (.obj [("a", .num 1), ("b", .arr [.num 2, .num 3])]) = true ∧
    (CompressionService.processDataAsync .compress
        (stringifyCompact (.obj [("a", .num 1), ("b", .arr [.num 2, .num 3])])) false true =
      .ok (compressToBase64
        (stringifyCompact (.obj [("a", .num 1), ("b", .arr [.num 2, .num 3])]))) ∧
    CompressionService.processDataAsync .decompress
        (compressToBase64
          (stringifyCompact (.obj [("a", .num 1), ("b", .arr [.num 2, .num 3])]))) true true =
      .ok (stringifyPretty (.obj [("a", .num 1), ("b", .arr [.num 2, .num 3])])) ∧
    parseJson (stringifyPretty (.obj [("a", .num 1), ("b", .arr [.num 2, .num 3])])) =
      some (.obj [("a", .num 1), ("b", .arr [.num 2, .num 3])])) :=
  ⟨by decide, c1_round_trip (.obj [("a", .num 1), ("b", .arr [.num 2, .num 3])])
    false true (by decide)⟩

/-- C2 counterexample: on a payload whose decode fails, delegated and inline
modes reject with different reasons (the two source files throw distinct
message strings), so the two modes do not resolve to the same result. -/
theorem c2_counterexample :
    CompressionService.processDataAsync .decompress "x" true true =
      .err .workerDecodeFail ∧
    CompressionService.processDataAsync .decompress "x" false true =
      .err .syncDecodeFail ∧
    CompressionService.processDataAsync .decompress "x" true true ≠
      CompressionService.processDataAsync .decompress "x" false true ∧
    errorMessage .workerDecodeFail ≠ errorMessage .syncDecodeFail :=
  ⟨rfl, rfl, by decide, by decide⟩

/-- C2 amended: for every action and payload the two modes agree on the
success/failure outcome and on the successful result text; the only
divergence is the wording of the decode-failure reason, mapped by
`toWorkerErr`. -/
theorem c2_mode_equivalence_amended (action : Action) (data : String) :
    CompressionService.processDataAsync action data true true =
      toWorkerErr (CompressionService.processDataAsync action data false true) := by
  cases action with
  | compress =>
    cases hp : parseJson data <;>
      simp [CompressionService.processDataAsync, CompressionService.runSync,
        workerOnMessage, CompressionService.compressJsonSync, hp, toWorkerErr]
  | decompress =>
    cases hdec : decompressFromBase64 data with
    | none =>
      simp [CompressionService.processDataAsync, CompressionService.runSync,
        CompressionService.decompressJsonSync, workerOnMessage, hdec, toWorkerErr]
    | some d =>
      cases hp : parseJson d <;>
        simp [CompressionService.processDataAsync, CompressionService.runSync,
          CompressionService.decompressJsonSync, workerOnMessage, hdec, hp, toWorkerErr]

/-- C4 counterexample: the input `"A"` decodes to the empty string (the
encoding of the empty text); decompression then reaches the parse step and
fails with the parse error on the empty text, not with the decode-level
failure, in both modes. -/
theorem c4_counterexample :
    decompressFromBase64 "A" = some "" ∧
    CompressionService.processDataAsync .decompress "A" false true =
      .err (.jsonParse "") ∧
    CompressionService.processDataAsync .decompress "A" false true ≠
      .err .syncDecodeFail ∧
    CompressionService.processDataAsync .decompress "A" true true =
      .err (.jsonParse "") ∧
    CompressionService.processDataAsync .decompress "A" true true ≠
      .err .workerDecodeFail :=
  ⟨rfl, rfl, by decide, rfl, by decide⟩

/-- C4 amended: a null decode fails with the decode-level error in both
modes; an empty-string decode is not caught by the null check and instead
fails at the parse step with the parse error on the empty text. -/
theorem c4_decode_failure_amended (s : String) :
    (decompressFromBase64 s = none →
      CompressionService.processDataAsync .decompress s false true =
        .err .syncDecodeFail ∧
      CompressionService.processDataAsync .decompress s true true =
        .err .workerDecodeFail) ∧
    (decompressFromBase64 s = some "" →
      CompressionService.processDataAsync .decompress s false true =
        .err (.jsonParse "") ∧
      CompressionService.processDataAsync .decompress s true true =
        .err (.jsonParse "")) := by
  have hpe : parseJson "" = none := rfl
  constructor
  · intro h
    simp [CompressionService.processDataAsync, CompressionService.runSync,
      CompressionService.decompressJsonSync, workerOnMessage, h]
  · intro h
    simp [CompressionService.processDataAsync, CompressionService.runSync,
      CompressionService.decompressJsonSync, workerOnMessage, h, hpe]

/-- Witness for C4's amended statement at a null decode and an empty decode. -/
theorem c4_decode_failure_amended_witness :
    decompressFromBase64 "x" = none ∧
    decompressFromBase64 "A" = some "" ∧
    (CompressionService.processDataAsync .decompress "x" false true =
        .err .syncDecodeFail ∧
      CompressionService.processDataAsync .decompress "x" true true =
        .err .workerDecodeFail) ∧
    (CompressionService.processDataAsync .decompress "A" false true =
        .err (.jsonParse "") ∧
      CompressionService.processDataAsync .decompress "A" true true =
        .err (.jsonParse "")) :=
  ⟨rfl, rfl, (c4_decode_failure_amended "x").1 rfl,
    (c4_decode_failure_amended "A").2 rfl⟩

/-- C5: when delegated mode is requested and the host offers no worker
facility, the dispatcher rejects with the environment error for every action
and payload, and never resolves successfully — no inline fallback occurs. -/
theorem c5_no_worker_env_error (action : Action) (data : String) :
    CompressionService.processDataAsync action data true false =
      .err .workersUnsupported ∧
    ∀ result, CompressionService.processDataAsync action data true false ≠
      .ok result := by
  constructor
  · simp [CompressionService.processDataAsync]
  · intro result
    simp [CompressionService.processDataAsync]

/-- C6: classification and the dispatcher are pure functions of the input
text (and of the mode flags): equal inputs give equal classifications and
equal transform results on every action and mode. -/
theorem c6_determinism (s1 s2 : String) (h : s1 = s2) :
    CompressionService.analyzeData s1 = CompressionService.analyzeData s2 ∧
    (∀ (action : Action) (u hw : Bool),
      CompressionService.processDataAsync action s1 u hw =
        CompressionService.processDataAsync action s2 u hw) := by
  subst h
  exact ⟨rfl, fun _ _ _ => rfl⟩

/-- Witness for C6 at a concrete repeated input. -/
theorem c6_determinism_witness :
    CompressionService.analyzeData "[1]" = CompressionService.analyzeData "[1]" ∧
    (∀ (action : Action) (u hw : Bool),
      CompressionService.processDataAsync action "[1]" u hw =
        CompressionService.processDataAsync action "[1]" u hw) :=
  c6_determinism "[1]" "[1]" rfl

/-- C7: blank input makes the entry point report the empty-input error and
return without dispatching any transform, in every mode configuration. -/
theorem c7_empty_input (s : String) (u hw : Bool) (h : trimString s = "") :
    AppComponent.handleAction s u hw = .emptyInput := by
  simp [AppComponent.handleAction, h]

/-- Witness for C7 at the whitespace-only input of the spec's scenario C. -/
theorem c7_empty_input_witness :
    trimString "   " = "" ∧
    AppComponent.handleAction "   " true true = HandleOutcome.emptyInput :=
  ⟨rfl, c7_empty_input "   " true true rfl⟩

/-- C8: every successful compress resolves with the base64-safe encoding of
the compact serialization of the parsed value, compress fails exactly on
parse failure, and every successful decompress resolves with the two-space
pretty serialization of the parsed decoded text — in either mode. -/
theorem c8_serialization_forms (s : String) (u : Bool) :
    (∀ v, parseJson s = some v →
      CompressionService.processDataAsync .compress s u true =
        .ok (compressToBase64 (stringifyCompact v)) ∧
      ∀ c ∈ (compressToBase64 (stringifyCompact v)).data, isB64Char c = true) ∧
    (parseJson s = none →
      CompressionService.processDataAsync .compress s u true =
        .err (.jsonParse s)) ∧
    (∀ d v, decompressFromBase64 s = some d → parseJson d = some v →
      CompressionService.processDataAsync .decompress s u true =
        .ok (stringifyPretty v)) := by
  refine ⟨?_, ?_, ?_⟩
  · intro v hp
    constructor
    · cases u <;>
        simp [CompressionService.processDataAsync, CompressionService.runSync,
          workerOnMessage, CompressionService.compressJsonSync, hp]
    · exact compressToBase64_b64 (stringifyCompact v)
  · intro hp
    cases u <;>
      simp [CompressionService.processDataAsync, CompressionService.runSync,
        workerOnMessage, hp]
  · intro d v hdec hp
    cases u <;>
      simp [CompressionService.processDataAsync, CompressionService.runSync,
        CompressionService.decompressJsonSync, workerOnMessage, hdec, hp]

/-- Witness for C8 at a concrete compress input and a concrete encoding. -/
theorem c8_serialization_forms_witness :
    parseJson "[1]" = some (.arr [.num 1]) ∧
    decompressFromBase64 "A49+" = some "1" ∧
    parseJson "1" = some (.num 1) ∧
    (CompressionService.processDataAsync .compress "[1]" false true =
        .ok (compressToBase64 (stringifyCompact (.arr [.num 1]))) ∧
      ∀ c ∈ (compressToBase64 (stringifyCompact (.arr [.num 1]))).data,
        isB64Char c = true) ∧
    CompressionService.processDataAsync .decompress "A49+" false true =
      .ok (stringifyPretty (.num 1)) :=
  ⟨rfl, rfl, rfl, (c8_serialization_forms "[1]" false).1 (.arr [.num 1]) rfl,
    (c8_serialization_forms "A49+" false).2.2 "1" (.num 1) rfl rfl⟩

/-- C9: compress does not enforce the classifier's composite-only rule — any
input that parses as a structured value, composite or bare scalar, compresses
successfully to an encoded string and never rejects. -/
theorem c9_compress_accepts_scalars (s : String) (v : JsonValue) (u : Bool)
    (h : parseJson s = some v) :
    CompressionService.processDataAsync .compress s u true =
      .ok (compressToBase64 (stringifyCompact v)) ∧
    ∀ e, CompressionService.processDataAsync .compress s u true ≠ .err e := by
  have hok : CompressionService.processDataAsync .compress s u true =
      .ok (compressToBase64 (stringifyCompact v)) := by
    cases u <;>
      simp [CompressionService.processDataAsync, CompressionService.runSync,
        workerOnMessage, CompressionService.compressJsonSync, h]
  exact ⟨hok, fun e => by simp [hok]⟩

/-- Witness for C9 at the bare scalar `"42"`, which the classifier labels
unknown yet compress accepts. -/
theorem c9_compress_accepts_scalars_witness :
    parseJson "42" = some (.num 42) ∧
    CompressionService.analyzeData "42" = .unknown ∧
    (CompressionService.processDataAsync .compress "42" false true =
        .ok (compressToBase64 (stringifyCompact (.num 42))) ∧
      ∀ e, CompressionService.processDataAsync .compress "42" false true ≠
        .err e) :=
  ⟨rfl, rfl, c9_compress_accepts_scalars "42" (.num 42) false rfl⟩

/-- C10: for non-empty input the entry point selects the action solely by
whether the classification is `json`: anything else — `compressed` or
`unknown` alike — is dispatched as a decompress request, never rejected up
front. -/
theorem c10_dispatch_by_classification (s : String) (u hw : Bool)
    (h1 : trimString s ≠ "") :
    (CompressionService.analyzeData (trimString s) ≠ .json →
      AppComponent.handleAction s u hw = .dispatched .decompress
        (CompressionService.processDataAsync .decompress s u hw)) ∧
    (CompressionService.analyzeData (trimString s) = .json →
      AppComponent.handleAction s u hw = .dispatched .compress
        (CompressionService.processDataAsync .compress s u hw)) := by
  constructor
  · intro h2
    simp [AppComponent.handleAction, h1, h2]
  · intro h2
    simp [AppComponent.handleAction, h1, h2]

/-- Witness for C10 at an unrecognized input (dispatched as decompress) and a
structured one (dispatched as compress). -/
theorem c10_dispatch_by_classification_witness :
    trimString "xyz" ≠ "" ∧
    CompressionService.analyzeData (trimString "xyz") ≠ .json ∧
    AppComponent.handleAction "xyz" true true = .dispatched .decompress
      (CompressionService.processDataAsync .decompress "xyz" true true) ∧
    trimString "[1]" ≠ "" ∧
    CompressionService.analyzeData (trimString "[1]") = .json ∧
    AppComponent.handleAction "[1]" true true = .dispatched .compress
      (CompressionService.processDataAsync .compress "[1]" true true) :=
  ⟨by decide, by decide,
    (c10_dispatch_by_classification "xyz" true true (by decide)).1 (by decide),
    by decide, rfl,
    (c10_dispatch_by_classification "[1]" true true (by decide)).2 rfl⟩

end CompressDecompressJson
